import Mathlib

/-!
Shallow embedding of progressist (a single-line terminal progress bar,
src/progressist/__init__.py).  Python integers are modelled as ZZ, floats
as QQ, strings as String, and fallible paths as Option/Except.  Output
writes are instrumented as counters and logs on the state.
-/

/-- Python exception kinds that the modelled code paths can raise. -/
inductive PyErr
  | attributeError
  | typeError
  | valueError
  deriving DecidableEq

/-- Values that flow through the template formatter: the attribute kinds of
ProgressBar that the modelled template fields produce.  percentV models the
Percent float subclass (default format .2 percent), floatV the Float
subclass (default .2f). -/
inductive PyValue
  | strV (s : String)
  | intV (n : ℤ)
  | floatV (q : ℚ)
  | percentV (q : ℚ)
  deriving DecidableEq

/-- A pre-parsed piece of a Python format template: literal text, or a
replacement field with its name and format spec. -/
inductive TPart
  | lit (s : String)
  | field (name : String) (spec : String)
  deriving DecidableEq

/-- Python int(q) applied to a float: truncation toward zero. -/
def pytrunc (q : ℚ) : ℤ :=
  if q < 0 then -⌊-q⌋ else ⌊q⌋

/-- Python string repetition of a single character, empty when the count is
not positive. -/
def strRepeat (c : Char) (n : ℤ) : String :=
  String.mk (List.replicate n.toNat c)

/-- Python float division (true division, exact here since the claims only
exercise exactly representable values).  Stated over numerators and
denominators so that concrete instances evaluate inside the kernel; the
lemma pydiv_eq_div below identifies it with division in the rational
field. -/
def pydiv (a b : ℚ) : ℚ :=
  Rat.divInt (a.num * b.den) (a.den * b.num)

/-- Python float multiplication, stated over numerators and denominators
for the same reason as pydiv; the lemma pymul_eq_mul below identifies it
with multiplication in the rational field. -/
def pymul (a b : ℚ) : ℚ :=
  Rat.divInt (a.num * b.num) ((a.den * b.den : ℕ) : ℤ)

/-- Round to the nearest integer, ties to even: the rounding Python format
uses for fixed-point specs.  The fractional part of q is below (above) one
half exactly when twice the numerator of q is below (above) the product of
twice the floor plus one with the denominator. -/
def roundHalfEven (q : ℚ) : ℤ :=
  let n := ⌊q⌋
  if 2 * q.num < (2 * n + 1) * (q.den : ℤ) then n
  else if (2 * n + 1) * (q.den : ℤ) < 2 * q.num then n + 1
  else if n % 2 = 0 then n else n + 1

/-- Left-pad a digit string with zeros up to width w. -/
def padZeros (s : String) (w : ℕ) : String :=
  String.mk (List.replicate (w - s.length) '0') ++ s

/-- Fixed-point rendering of a rational with prec digits after the point,
as Python format renders a float with an f spec (on the exactly
representable inputs the claims use, the binary-float detour of CPython is
lossless). -/
def formatFixed (q : ℚ) (prec : ℕ) : String :=
  let n := roundHalfEven (pymul q ((10 : ℚ) ^ prec))
  let sign := if n < 0 then "-" else ""
  let m := n.natAbs
  let ip := m / 10 ^ prec
  let fp := m % 10 ^ prec
  if prec = 0 then sign ++ toString ip
  else sign ++ toString ip ++ "." ++ padZeros (toString fp) prec

/-- Formatter.format_bytes: suffixes tried in order. -/
def SUFFIXES : List String :=
  ["KiB", "MiB", "GiB", "TiB", "PiB", "EiB", "ZiB", "YiB"]

/-- The loop of Formatter.format_bytes: divide by 1024, emit on the first
quotient below 1024 with the current suffix; none when the suffix list is
exhausted (the Python function falls off the loop and returns None). -/
def formatBytesAux (prec : ℕ) : List String → ℚ → Option String
  | [], _ => none
  | suffix :: rest, size =>
    let size := pydiv size 1024
    if size < 1024 then some (formatFixed size prec ++ " " ++ suffix)
    else formatBytesAux prec rest size

/-- Parse a nonempty all-digit character list as a natural number. -/
def parseDigits (cs : List Char) : Option ℕ :=
  if cs ≠ [] ∧ cs.all (fun c => c.isDigit) then
    some (cs.foldl (fun acc c => 10 * acc + (c.toNat - 48)) 0)
  else none

/-- Parse the precision portion of a byte-size format spec, of the form
dot-then-digits (the fragment of the format mini-language these templates
use); anything else is a malformed spec. -/
def parsePrec (s : String) : Option ℕ :=
  if s.data.head? = some '.' then parseDigits s.data.tail else none

/-- Formatter.format_bytes(size, spec): the spec defaults to .1 when falsy. -/
def format_bytes (size : ℤ) (spec : String) : Option String :=
  let spec := if spec = "" then ".1" else spec
  (parsePrec spec).bind fun prec => formatBytesAux prec SUFFIXES (size : ℚ)

/-- Python int(value) for the modelled value kinds: floats truncate toward
zero, strings parse as integers when possible. -/
def pyToInt : PyValue → Option ℤ
  | .intV n => some n
  | .floatV q => some (pytrunc q)
  | .percentV q => some (pytrunc q)
  | .strV s => s.toInt?

/-- Default formatting of a value under the empty spec, following the
format overrides of Float and Percent and the Python defaults for str and
int; nonempty specs outside the byte-size extension are not exercised by
the claims and are left unmodelled. -/
def defaultFormat (v : PyValue) (spec : String) : Option String :=
  if spec = "" then
    some (match v with
      | .strV s => s
      | .intV n => toString n
      | .floatV q => formatFixed q 2
      | .percentV q => formatFixed (pymul q 100) 2 ++ "%")
  else none

/-- Formatter.format_field: a spec ending in B (i.e. whose last character
is B) renders the value as a human-scaled byte size via format_bytes on
the spec minus its final character; otherwise standard formatting. -/
def format_field (v : PyValue) (format_string : String) : Option String :=
  if format_string.data.getLast? = some 'B' then
    (pyToInt v).bind fun n =>
      format_bytes n (String.mk format_string.data.dropLast)
  else defaultFormat v format_string

/-- Python min of two values: the first argument when it is at most the
second, else the second. -/
def pymin (a b : ℚ) : ℚ :=
  if a ≤ b then a else b

/-- The completion fraction computed in ProgressBar.render:
min of done over total and 1 when total is nonzero, else 0. -/
def fractionOf (done total : ℤ) : ℚ :=
  if total = 0 then 0 else pymin (pydiv (done : ℚ) (total : ℚ)) 1

/-- The attributes of a ProgressBar instance that the modelled template
fields read during one formatting pass (the property source handed to
Formatter.vformat). -/
structure Ctx where
  prefixStr : String
  done_char : Char
  remain_char : Char
  animation : String
  steps : List Char
  done : ℤ
  total : ℤ
  fraction : ℚ
  free_space : ℤ
  deriving DecidableEq

/-- ProgressBar.progress: the filled/unfilled bar.  Empty when free_space
is zero (the falsiness test in the source); otherwise int(fraction times
free_space) done chars then the remaining count of remain chars. -/
def progressStr (c : Ctx) : String :=
  if c.free_space = 0 then ""
  else
    let done_chars := pytrunc (pymul c.fraction (c.free_space : ℚ))
    strRepeat c.done_char done_chars ++
      strRepeat c.remain_char (c.free_space - done_chars)

/-- ProgressBar.stream: free_space glyphs cycling through steps, offset by
done.  The Lean percent on ZZ is Euclidean remainder, matching the Python
modulo for a positive modulus; the getD default is unreachable for a
nonempty steps list. -/
def streamStr (c : Ctx) : String :=
  String.mk <| (List.range c.free_space.toNat).map fun (i : ℕ) =>
    c.steps.getD ((c.done + (i : ℤ)) % (c.steps.length : ℤ)).toNat ' '

/-- ProgressBar getitem: getattr on self with default empty string,
restricted to the attributes the modelled templates reference; any other
name falls through to the getattr default. -/
def getField (c : Ctx) (name : String) : PyValue :=
  if name = "prefix" then .strV c.prefixStr
  else if name = "animation" then .strV c.animation
  else if name = "done" then .intV c.done
  else if name = "total" then .intV c.total
  else if name = "percent" then .percentV c.fraction
  else if name = "progress" then .strV (progressStr c)
  else if name = "stream" then .strV (streamStr c)
  else .strV ""

/-- One pass of Formatter.vformat over a pre-parsed template: resolve each
field against the property source and format it with its spec. -/
def formatParts : List TPart → Ctx → Option String
  | [], _ => some ""
  | .lit s :: ps, c => (formatParts ps c).map fun r => s ++ r
  | .field name spec :: ps, c =>
    (format_field (getField c name) spec).bind fun v =>
      (formatParts ps c).map fun r => v ++ r

/-- The default template, pre-parsed, with the carriage return prepended by
the constructor. -/
def defaultTemplateParts : List TPart :=
  [.lit "\r", .field "prefix" "", .lit " ", .field "animation" "",
   .lit " ", .field "percent" "", .lit " (", .field "done" "",
   .lit "/", .field "total" "", .lit ")"]

/-- A bar context with the class defaults, at a given counter state and
free space; the fraction is the one render computes. -/
def mkCtx (done total free_space : ℤ) : Ctx :=
  { prefixStr := "Progress:", done_char := '=', remain_char := ' ',
    animation := "{progress}", steps := ['-', '\\', '|', '/'],
    done := done, total := total,
    fraction := fractionOf done total, free_space := free_space }

/-- The free-space computation of ProgressBar.render: columns minus the
rendered shell line length plus the animation placeholder length plus the
invisible characters.  There is no clamping in the source. -/
def computeFreeSpace (columns lineLen animLen invisible : ℤ) : ℤ :=
  columns - lineLen + animLen + invisible

/-- The mutable state of ProgressBar that the update/render control flow
touches, plus instrumentation of the writes: renders logs the done value at
each non-throttled redraw, outroCount counts the outro writes performed by
finish.  fractionSet mirrors the fraction instance attribute, absent before
the first non-throttled render. -/
structure BarState where
  done : ℤ
  total : ℤ
  throttle : ℤ
  supply : ℤ
  lastRender : ℤ
  started : Bool
  fractionSet : Option ℚ
  renders : List ℤ
  outroCount : ℕ
  deriving DecidableEq

/-- A freshly constructed bar: class defaults with total and throttle
overridden. -/
def initBar (total throttle : ℤ) : BarState :=
  { done := 0, total := total, throttle := throttle, supply := 0,
    lastRender := 0, started := false, fractionSet := none,
    renders := [], outroCount := 0 }

/-- ProgressBar.finish: writes the formatted outro once per call. -/
def finishB (s : BarState) : BarState :=
  { s with outroCount := s.outroCount + 1 }

/-- ProgressBar.render: return early when done is below lastRender plus
throttle and that bound is at most total; otherwise record the render,
recompute the fraction, write the line, and call finish when the fraction
reached 1 (else only flush). -/
def render (s : BarState) : BarState :=
  if s.done < s.lastRender + s.throttle ∧ s.lastRender + s.throttle ≤ s.total
  then s
  else
    let f := fractionOf s.done s.total
    let s := { s with lastRender := s.done, started := true,
                      fractionSet := some f,
                      renders := s.renders ++ [s.done] }
    if 1 ≤ f then finishB s else s

/-- ProgressBar.update(step) with no keyword overrides: increment done when
step is nonzero, then render. -/
def update (s : BarState) (step : ℤ) : BarState :=
  render (if step = 0 then s else { s with done := s.done + step })

/-- n successive update calls with step 1, as the iteration adapter
performs. -/
def updates (s : BarState) (n : ℕ) : BarState :=
  (fun t => update t 1)^[n] s

/-- ProgressBar.iter over a finite sequence of n elements: one update per
element, then the final fraction test; reading self.fraction before any
non-throttled render raises AttributeError because the attribute is only
assigned inside render. -/
def iterSim (s : BarState) (n : ℕ) : Except PyErr BarState :=
  let s := updates s n
  match s.fractionSet with
  | none => Except.error PyErr.attributeError
  | some f => Except.ok (if f ≠ 1 then finishB s else s)

/-- The constructor of ETA for a call with argCount positional arguments.
The module does a from-import of the datetime class, so the name datetime
inside the isinstance guard denotes the class itself and the attribute
lookup of datetime on it raises AttributeError whenever the guard is
evaluated, i.e. whenever args is nonempty.  With no arguments the guard is
falsy and the else branch forwards no arguments to the datetime
constructor, a TypeError since year is required.  Neither branch contains
a return statement, so even absent those errors no branch could hand back
the new instance. -/
def ETA_new (argCount : ℕ) : Except PyErr (Option Unit) :=
  if 0 < argCount then Except.error PyErr.attributeError
  else Except.error PyErr.typeError

/-- The construction performed by the eta property: ETA applied to the sum
of now and the remaining time, one positional argument. -/
def etaConstruct : Except PyErr (Option Unit) := ETA_new 1

/-! Helper lemmas. -/

theorem strRepeat_length (c : Char) (n : ℤ) :
    (strRepeat c n).length = n.toNat := by
  simp [strRepeat, String.length]

theorem strRepeat_nonpos (c : Char) {n : ℤ} (h : n ≤ 0) :
    strRepeat c n = "" := by
  rw [strRepeat, Int.toNat_of_nonpos h]
  rfl

theorem pytrunc_of_nonneg {q : ℚ} (h : 0 ≤ q) : pytrunc q = ⌊q⌋ := by
  rw [pytrunc, if_neg (not_lt.mpr h)]

theorem pytrunc_nonpos {q : ℚ} (h : q ≤ 0) : pytrunc q ≤ 0 := by
  rw [pytrunc]
  split
  · have : (0 : ℤ) ≤ ⌊-q⌋ := Int.floor_nonneg.2 (by linarith)
    omega
  · have hq : q = 0 := le_antisymm h (not_lt.mp (by assumption))
    simp [hq]

theorem le_pytrunc_of_nonpos {q : ℚ} (h : q ≤ 0) : q ≤ (pytrunc q : ℚ) := by
  rw [pytrunc]
  split
  · rw [Int.floor_neg]
    push_cast
    simpa using Int.le_ceil q
  · have hq : q = 0 := le_antisymm h (not_lt.mp (by assumption))
    simp [hq]

theorem pymin_eq_min (a b : ℚ) : pymin a b = min a b := by
  rw [pymin, min_def]

theorem pydiv_eq_div (a b : ℚ) : pydiv a b = a / b := by
  by_cases hb : b = 0
  · simp [pydiv, hb, Rat.divInt]
  · have had : ((a.den : ℚ)) ≠ 0 := Nat.cast_ne_zero.mpr (Rat.den_ne_zero a)
    have hbd : ((b.den : ℚ)) ≠ 0 := Nat.cast_ne_zero.mpr (Rat.den_ne_zero b)
    have hbn : (b.num : ℚ) ≠ 0 := by
      exact_mod_cast Int.cast_ne_zero.mpr (Rat.num_ne_zero.mpr hb)
    have ha : (a.num : ℚ) = a * a.den := (div_eq_iff had).mp (Rat.num_div_den a)
    have hb2 : (b.num : ℚ) = b * b.den := (div_eq_iff hbd).mp (Rat.num_div_den b)
    rw [pydiv, Rat.divInt_eq_div]
    push_cast
    field_simp
    rw [ha, hb2]
    ring

theorem pymul_eq_mul (a b : ℚ) : pymul a b = a * b := by
  have had : ((a.den : ℚ)) ≠ 0 := Nat.cast_ne_zero.mpr (Rat.den_ne_zero a)
  have hbd : ((b.den : ℚ)) ≠ 0 := Nat.cast_ne_zero.mpr (Rat.den_ne_zero b)
  have ha : (a.num : ℚ) = a * a.den := (div_eq_iff had).mp (Rat.num_div_den a)
  have hb2 : (b.num : ℚ) = b * b.den := (div_eq_iff hbd).mp (Rat.num_div_den b)
  rw [pymul, Rat.divInt_eq_div]
  push_cast
  field_simp
  rw [ha, hb2]
  ring

theorem render_not_throttled (s : BarState)
    (h : ¬ (s.done < s.lastRender + s.throttle ∧
            s.lastRender + s.throttle ≤ s.total)) :
    render s =
      (if 1 ≤ fractionOf s.done s.total
        then finishB { s with lastRender := s.done, started := true,
                              fractionSet := some (fractionOf s.done s.total),
                              renders := s.renders ++ [s.done] }
        else { s with lastRender := s.done, started := true,
                      fractionSet := some (fractionOf s.done s.total),
                      renders := s.renders ++ [s.done] }) := by
  simp only [render, if_neg h]

/-! Claim theorems. -/

/-- C4: the fraction computed at render time equals done divided by total
when total is positive and done lies between 0 and total, is clamped to 1
when done exceeds total, and is 0 whenever total is 0; the computation is a
total function, so no division error can arise. -/
theorem C4_fraction (done total : ℤ) :
    (0 < total → 0 ≤ done → done ≤ total →
      fractionOf done total = (done : ℚ) / (total : ℚ)) ∧
    (0 < total → total < done → fractionOf done total = 1) ∧
    fractionOf done 0 = 0 := by
  refine ⟨?_, ?_, ?_⟩
  · intro ht _ hle
    rw [fractionOf, if_neg (by omega : ¬ total = 0), pymin_eq_min, pydiv_eq_div]
    refine min_eq_left ?_
    rw [div_le_one (by exact_mod_cast ht)]
    exact_mod_cast hle
  · intro ht hlt
    rw [fractionOf, if_neg (by omega : ¬ total = 0), pymin_eq_min, pydiv_eq_div]
    refine min_eq_right ?_
    rw [le_div_iff₀ (by exact_mod_cast ht)]
    have : (total : ℚ) ≤ (done : ℚ) := by exact_mod_cast hlt.le
    linarith
  · rw [fractionOf, if_pos rfl]

/-- Witness for C4 at done 1, total 2 (exact ratio), done 3, total 2
(clamped to 1) and total 0 (safe 0). -/
theorem C4_fraction_witness :
    fractionOf 1 2 = ((1 : ℤ) : ℚ) / ((2 : ℤ) : ℚ) ∧
    fractionOf 3 2 = 1 ∧
    fractionOf 5 0 = 0 :=
  ⟨(C4_fraction 1 2).1 (by decide) (by decide) (by decide),
   (C4_fraction 3 2).2.1 (by decide) (by decide),
   (C4_fraction 5 0).2.2⟩

/-- C10: for a render with positive free space and a fraction between 0
and 1, the bar is the floor of fraction times free_space done chars
followed by the complementary count of remain chars, and its length is
exactly free_space. -/
theorem C10_bar_width (c : Ctx) (hfs : 0 < c.free_space)
    (h0 : 0 ≤ c.fraction) (h1 : c.fraction ≤ 1) :
    progressStr c =
      strRepeat c.done_char ⌊c.fraction * (c.free_space : ℚ)⌋ ++
        strRepeat c.remain_char
          (c.free_space - ⌊c.fraction * (c.free_space : ℚ)⌋) ∧
    (progressStr c).length = c.free_space.toNat := by
  have hq : (0 : ℚ) ≤ c.fraction * (c.free_space : ℚ) :=
    mul_nonneg h0 (by exact_mod_cast hfs.le)
  have hne : ¬ c.free_space = 0 := by omega
  have hdef : progressStr c =
      strRepeat c.done_char ⌊c.fraction * (c.free_space : ℚ)⌋ ++
        strRepeat c.remain_char
          (c.free_space - ⌊c.fraction * (c.free_space : ℚ)⌋) := by
    simp only [progressStr, if_neg hne, pymul_eq_mul, pytrunc_of_nonneg hq]
  have hfl0 : 0 ≤ ⌊c.fraction * (c.free_space : ℚ)⌋ := Int.floor_nonneg.2 hq
  have hfl1 : ⌊c.fraction * (c.free_space : ℚ)⌋ ≤ c.free_space := by
    have hle : c.fraction * (c.free_space : ℚ) ≤ (c.free_space : ℚ) :=
      mul_le_of_le_one_left (by exact_mod_cast hfs.le) h1
    have := Int.floor_le_floor hle
    simpa using this
  refine ⟨hdef, ?_⟩
  rw [hdef, String.length_append, strRepeat_length, strRepeat_length]
  omega

/-- Witness for C10 at the default configuration with done 1, total 2 and
free space 4. -/
theorem C10_bar_width_witness :
    progressStr (mkCtx 1 2 4) =
      strRepeat (mkCtx 1 2 4).done_char
          ⌊(mkCtx 1 2 4).fraction * ((mkCtx 1 2 4).free_space : ℚ)⌋ ++
        strRepeat (mkCtx 1 2 4).remain_char
          ((mkCtx 1 2 4).free_space -
            ⌊(mkCtx 1 2 4).fraction * ((mkCtx 1 2 4).free_space : ℚ)⌋) ∧
    (progressStr (mkCtx 1 2 4)).length = (mkCtx 1 2 4).free_space.toNat :=
  C10_bar_width (mkCtx 1 2 4) (by decide) (by decide) (by decide)

/-- C1 counterexample: with total 2 and throttle 0, the update that brings
done to 2 renders and emits outro; the next update call renders again with
the fraction still clamped at 1 and emits outro a second time, so the
automatic completion path is not once-only. -/
theorem C1_counterexample :
    (updates (initBar 2 0) 2).outroCount = 1 ∧
    (updates (initBar 2 0) 3).outroCount = 2 := by decide

/-- C1 (amended): once done has reached total (total positive), every
subsequent update call renders again and re-emits outro: the automatic
completion path writes outro on every render whose fraction is at least 1,
not exactly once. -/
theorem C1_amended_outro_reemitted (s : BarState)
    (h1 : 0 < s.total) (h2 : s.total ≤ s.done) :
    (update s 1).outroCount = s.outroCount + 1 := by
  have hstep : update s 1 = render { s with done := s.done + 1 } := by
    norm_num [update]
  set t : BarState := { s with done := s.done + 1 } with ht
  have hguard : ¬ (t.done < t.lastRender + t.throttle ∧
      t.lastRender + t.throttle ≤ t.total) := by
    rintro ⟨a, b⟩
    have a' : s.done + 1 < s.lastRender + s.throttle := a
    have b' : s.lastRender + s.throttle ≤ s.total := b
    omega
  have hfrac : 1 ≤ fractionOf t.done t.total := by
    have heq : fractionOf t.done t.total = fractionOf (s.done + 1) s.total := rfl
    rw [heq, fractionOf, if_neg (by omega : ¬ s.total = 0), pymin_eq_min,
      pydiv_eq_div]
    refine le_min ?_ le_rfl
    rw [le_div_iff₀ (by exact_mod_cast h1)]
    have h2q : (s.total : ℚ) ≤ (s.done : ℚ) := by exact_mod_cast h2
    push_cast
    linarith
  rw [hstep, render_not_throttled t hguard, if_pos hfrac]
  rfl

/-- Witness for the amended C1: the state reached after completing a bar
with total 2 re-emits outro on one more update. -/
theorem C1_amended_witness :
    (update (updates (initBar 2 0) 2) 1).outroCount =
      (updates (initBar 2 0) 2).outroCount + 1 :=
  C1_amended_outro_reemitted (updates (initBar 2 0) 2) (by decide) (by decide)

/-- C2 counterexample: with throttle 5 and total 12, a redraw also occurs
at done 11 (before done reaches total and not on a fifth call), so the
redraw sequence is 5, 10, 11, 12 rather than the claimed 5, 10, 12. -/
theorem C2_counterexample :
    (updates (initBar 12 5) 11).renders = [5, 10, 11] ∧
    (updates (initBar 12 5) 12).renders ≠ ([5, 10, 12] : List ℤ) := by decide

/-- A render is never skipped once the throttle window extends past total:
if total is at most done plus one, the update that increments done to done
plus one always redraws. -/
theorem update_renders_final (s : BarState) (h : s.total ≤ s.done + 1) :
    (update s 1).renders = s.renders ++ [s.done + 1] := by
  have hstep : update s 1 = render { s with done := s.done + 1 } := by
    norm_num [update]
  set t : BarState := { s with done := s.done + 1 } with ht
  have hguard : ¬ (t.done < t.lastRender + t.throttle ∧
      t.lastRender + t.throttle ≤ t.total) := by
    rintro ⟨a, b⟩
    have a' : s.done + 1 < s.lastRender + s.throttle := a
    have b' : s.lastRender + s.throttle ≤ s.total := b
    omega
  rw [hstep, render_not_throttled t hguard]
  by_cases hf : 1 ≤ fractionOf t.done t.total
  · rw [if_pos hf]
    rfl
  · rw [if_neg hf]

/-- C2 (amended): with throttle 5 and total 12 the redraws happen at done
5, 10, 11 and 12 — every fifth call only while the throttle window
lastRender plus throttle stays within total, and on every call after the
window passes total; in particular the final render that reaches or
exceeds total is never throttled away. -/
theorem C2_amended_throttle :
    (updates (initBar 12 5) 12).renders = [5, 10, 11, 12] ∧
    ∀ s : BarState, s.total ≤ s.done + 1 →
      (update s 1).renders = s.renders ++ [s.done + 1] :=
  ⟨by decide, update_renders_final⟩

/-- Witness for the amended C2: the unthrottled final render on a fresh
bar with total 0. -/
theorem C2_amended_witness :
    (update (initBar 0 0) 1).renders =
      (initBar 0 0).renders ++ [(initBar 0 0).done + 1] :=
  C2_amended_throttle.2 (initBar 0 0) (by decide)

/-- C3 counterexample: a template field whose name matches no attribute
formats successfully as the empty string (the getattr default), rather
than propagating a missing-field error. -/
theorem C3_counterexample :
    getField (mkCtx 3 7 4) "nope" = PyValue.strV "" ∧
    formatParts [TPart.field "nope" ""] (mkCtx 3 7 4) = some "" := by decide

/-- C3 (amended): a template field whose name is not one of the resolvable
attributes does not raise at all: the property lookup falls back to the
empty-string getattr default and the template formats successfully with
the field rendered as the empty string. -/
theorem C3_amended_missing_field (c : Ctx) (name : String)
    (h1 : name ≠ "prefix") (h2 : name ≠ "animation") (h3 : name ≠ "done")
    (h4 : name ≠ "total") (h5 : name ≠ "percent") (h6 : name ≠ "progress")
    (h7 : name ≠ "stream") :
    formatParts [TPart.field name ""] c = some "" := by
  have hg : getField c name = PyValue.strV "" := by
    simp [getField, h1, h2, h3, h4, h5, h6, h7]
  simp only [formatParts]
  rw [hg]
  rfl

/-- Witness for the amended C3 at a concrete unknown field name. -/
theorem C3_amended_witness :
    formatParts [TPart.field "nonexistent" ""] (mkCtx 3 7 4) = some "" :=
  C3_amended_missing_field (mkCtx 3 7 4) "nonexistent" (by decide) (by decide)
    (by decide) (by decide) (by decide) (by decide) (by decide)

/-- C5 counterexample: with total 0 and the class defaults, the first
formatting pass leaves the literal animation placeholder in the shell
line, and the dynamic region that the second pass produces for it is the
progress bar (here four remain chars), not the four-glyph spinner stream
that the stream field would produce; nothing selects the stream when
total is 0. -/
theorem C5_counterexample :
    formatParts defaultTemplateParts (mkCtx 0 0 0) =
      some "\rProgress: {progress} 0.00% (0/0)" ∧
    computeFreeSpace 26 33 10 1 = 4 ∧
    formatParts [TPart.field "progress" ""] (mkCtx 0 0 4) = some "    " ∧
    streamStr (mkCtx 0 0 4) = "-\\|/" ∧
    ("    " : String) ≠ "-\\|/" := by decide

/-- C5 (amended): the stream field does render exactly free_space glyphs
drawn from the step characters, but a zero total does not select it: the
dynamic region is whatever field the animation attribute names, which by
default is the progress bar even in unbounded mode. -/
theorem C5_amended_stream :
    (∀ c : Ctx, c.steps ≠ [] →
      (streamStr c).length = c.free_space.toNat ∧
      ∀ ch ∈ (streamStr c).data, ch ∈ c.steps) ∧
    (mkCtx 0 0 4).animation = "{progress}" ∧
    formatParts [TPart.field "progress" ""] (mkCtx 0 0 4) = some "    " := by
  refine ⟨?_, by decide, by decide⟩
  intro c hsteps
  constructor
  · rw [streamStr, String.length_mk, List.length_map, List.length_range]
  · intro ch hch
    have hch' : ch ∈ (List.range c.free_space.toNat).map fun (i : ℕ) =>
        c.steps.getD ((c.done + (i : ℤ)) % (c.steps.length : ℤ)).toNat ' ' := hch
    obtain ⟨i, hi, rfl⟩ := List.mem_map.mp hch'
    have hlen : 0 < (c.steps.length : ℤ) := by
      have := List.length_pos.mpr hsteps
      exact_mod_cast this
    have hm0 : 0 ≤ (c.done + (i : ℤ)) % (c.steps.length : ℤ) :=
      Int.emod_nonneg _ (by omega)
    have hm1 : (c.done + (i : ℤ)) % (c.steps.length : ℤ) < (c.steps.length : ℤ) :=
      Int.emod_lt_of_pos _ hlen
    have h2 : ((c.done + (i : ℤ)) % (c.steps.length : ℤ)).toNat < c.steps.length := by
      omega
    rw [List.getD_eq_getElem _ _ h2]
    exact List.getElem_mem h2

/-- Witness for the amended C5 at the default steps with free space 4. -/
theorem C5_amended_witness :
    (streamStr (mkCtx 0 0 4)).length = (mkCtx 0 0 4).free_space.toNat ∧
    ∀ ch ∈ (streamStr (mkCtx 0 0 4)).data, ch ∈ (mkCtx 0 0 4).steps :=
  C5_amended_stream.1 (mkCtx 0 0 4) (by decide)

/-- C6 counterexample: at terminal width 5 with the default template (shell
line of length 33, animation placeholder of length 10, one invisible
character) the free-space computation of render yields minus 17: the value
is not clamped to 0, so the invariant that free space is non-negative
after every render fails. -/
theorem C6_counterexample :
    (formatParts defaultTemplateParts (mkCtx 0 0 0)).map String.length =
      some 33 ∧
    ("{progress}" : String).length = 10 ∧
    computeFreeSpace 5 33 10 1 = -17 ∧
    ¬ (0 ≤ computeFreeSpace 5 33 10 1) := by decide

/-- C6 (amended): free_space is the raw expression columns minus shell
line length plus animation length plus invisible characters, with no
clamping, and it can be negative; whenever it is not positive, both the
bar and the stream render as the empty string, so the dynamic region
degrades gracefully even though the invariant as stated fails. -/
theorem C6_amended_free_space :
    computeFreeSpace 5 33 10 1 < 0 ∧
    ∀ c : Ctx, c.free_space ≤ 0 → 0 ≤ c.fraction → c.fraction ≤ 1 →
      progressStr c = "" ∧ streamStr c = "" := by
  refine ⟨by decide, ?_⟩
  intro c hfs h0 h1
  constructor
  · by_cases hz : c.free_space = 0
    · simp [progressStr, hz]
    · have hfsq : ((c.free_space : ℚ)) ≤ 0 := by exact_mod_cast hfs
      have hq : c.fraction * (c.free_space : ℚ) ≤ 0 := by
        calc c.fraction * (c.free_space : ℚ) ≤ c.fraction * 0 :=
              mul_le_mul_of_nonneg_left hfsq h0
          _ = 0 := mul_zero _
      have hdc0 : pytrunc (c.fraction * (c.free_space : ℚ)) ≤ 0 :=
        pytrunc_nonpos hq
      have hge : (c.free_space : ℚ) ≤ c.fraction * (c.free_space : ℚ) := by
        have hmm := mul_le_mul_of_nonpos_right h1 hfsq
        simpa using hmm
      have hdcfs : c.free_space ≤ pytrunc (c.fraction * (c.free_space : ℚ)) := by
        have h3 : (c.free_space : ℚ) ≤
            (pytrunc (c.fraction * (c.free_space : ℚ)) : ℚ) :=
          le_trans hge (le_pytrunc_of_nonpos hq)
        exact_mod_cast h3
      have hrw : progressStr c =
          strRepeat c.done_char (pytrunc (c.fraction * (c.free_space : ℚ))) ++
            strRepeat c.remain_char
              (c.free_space - pytrunc (c.fraction * (c.free_space : ℚ))) := by
        simp only [progressStr, if_neg hz, pymul_eq_mul]
      rw [hrw, strRepeat_nonpos _ hdc0, strRepeat_nonpos _ (by omega)]
      rfl
  · have hzero : c.free_space.toNat = 0 := Int.toNat_of_nonpos hfs
    rw [streamStr, hzero]
    rfl

/-- Witness for the amended C6 at a context whose free space is negative. -/
theorem C6_amended_witness :
    progressStr (mkCtx 0 5 (-3)) = "" ∧ streamStr (mkCtx 0 5 (-3)) = "" :=
  C6_amended_free_space.2 (mkCtx 0 5 (-3)) (by decide) (by decide) (by decide)

/-- The format_bytes loop emits the k-th suffix exactly when k plus one
divisions by 1024 are needed to bring the size under 1024. -/
theorem formatBytesAux_spec (prec : ℕ) :
    ∀ (l : List String) (size : ℚ) (k : ℕ), k < l.length →
      (∀ j : ℕ, j ≤ k → (1024 : ℚ) ≤ size / 1024 ^ j) →
      size / 1024 ^ (k + 1) < 1024 →
      formatBytesAux prec l size =
        some (formatFixed (size / 1024 ^ (k + 1)) prec ++ " " ++ l.getD k "") := by
  intro l
  induction l with
  | nil =>
    intro size k hk _ _
    simp at hk
  | cons suffix rest ih =>
    intro size k hk hlow hhigh
    simp only [formatBytesAux, pydiv_eq_div]
    cases k with
    | zero =>
      have h1 : size / 1024 < 1024 := by
        rw [pow_one] at hhigh
        exact hhigh
      rw [if_pos h1, pow_one]
      rfl
    | succ k =>
      have hnot : ¬ (size / 1024 < 1024) := by
        have h := hlow 1 (by omega)
        rw [pow_one] at h
        exact not_lt.mpr h
      rw [if_neg hnot]
      have hk' : k < rest.length := by
        simpa using hk
      have hlow' : ∀ j : ℕ, j ≤ k → (1024 : ℚ) ≤ (size / 1024) / 1024 ^ j := by
        intro j hj
        have h := hlow (j + 1) (by omega)
        rw [div_div, show (1024 : ℚ) * 1024 ^ j = 1024 ^ (j + 1) from
          (pow_succ' 1024 j).symm]
        exact h
      have hhigh' : (size / 1024) / 1024 ^ (k + 1) < 1024 := by
        rw [div_div, show (1024 : ℚ) * 1024 ^ (k + 1) = 1024 ^ (k + 2) from
          (pow_succ' 1024 (k + 1)).symm]
        exact hhigh
      have e1 : (size / 1024) / 1024 ^ (k + 1) = size / 1024 ^ (k + 2) := by
        rw [div_div, show (1024 : ℚ) * 1024 ^ (k + 1) = 1024 ^ (k + 2) from
          (pow_succ' 1024 (k + 1)).symm]
      rw [ih (size / 1024) k hk' hlow' hhigh', e1]
      rfl

/-- C7: the byte-size extension divides the value by 1024 repeatedly until
it is below 1024, attaching the suffixes in order, with default precision
one decimal place; in particular 1536 with spec .1B renders 1.5 KiB and
1073741824 with spec B renders 1.0 GiB. -/
theorem C7_format_bytes :
    format_field (PyValue.intV 1536) ".1B" = some "1.5 KiB" ∧
    format_field (PyValue.intV 1073741824) "B" = some "1.0 GiB" ∧
    ∀ (size : ℤ) (prec k : ℕ), k < 8 →
      (1024 : ℤ) ^ (k + 1) ≤ size → size < 1024 ^ (k + 2) →
      formatBytesAux prec SUFFIXES (size : ℚ) =
        some (formatFixed ((size : ℚ) / 1024 ^ (k + 1)) prec ++ " " ++
          SUFFIXES.getD k "") := by
  refine ⟨by decide, by decide, ?_⟩
  intro size prec k hk hlo hhi
  have hkl : k < SUFFIXES.length := by simpa [SUFFIXES] using hk
  have hlow : ∀ j : ℕ, j ≤ k → (1024 : ℚ) ≤ (size : ℚ) / 1024 ^ j := by
    intro j hj
    rw [le_div_iff₀ (by positivity)]
    have hstep : (1024 : ℤ) ^ (j + 1) ≤ (1024 : ℤ) ^ (k + 1) :=
      pow_le_pow_right₀ (by norm_num) (by omega)
    have h1 : (((1024 : ℤ) ^ (j + 1) : ℤ) : ℚ) ≤ (size : ℚ) := by
      exact_mod_cast le_trans hstep hlo
    push_cast at h1
    calc (1024 : ℚ) * 1024 ^ j = 1024 ^ (j + 1) := (pow_succ' 1024 j).symm
      _ ≤ (size : ℚ) := h1
  have hhigh : (size : ℚ) / 1024 ^ (k + 1) < 1024 := by
    rw [div_lt_iff₀ (by positivity)]
    have h1 : (size : ℚ) < (((1024 : ℤ) ^ (k + 2) : ℤ) : ℚ) := by
      exact_mod_cast hhi
    push_cast at h1
    calc (size : ℚ) < 1024 ^ (k + 2) := h1
      _ = 1024 * 1024 ^ (k + 1) := pow_succ' 1024 (k + 1)
  exact formatBytesAux_spec prec SUFFIXES (size : ℚ) k hkl hlow hhigh

/-- Witness for C7 instantiating the general division property at 1536,
precision 1, first suffix. -/
theorem C7_format_bytes_witness :
    formatBytesAux 1 SUFFIXES ((1536 : ℤ) : ℚ) =
      some (formatFixed (((1536 : ℤ) : ℚ) / 1024 ^ (0 + 1)) 1 ++ " " ++
        SUFFIXES.getD 0 "") :=
  C7_format_bytes.2.2 1536 1 0 (by decide) (by decide) (by decide)

/-- C8: constructing an ETA from an existing datetime, as the eta property
does, never yields a usable instance: evaluating the isinstance guard in
the constructor raises AttributeError because the module-level from-import
makes the attribute lookup of datetime on the datetime class fail. -/
theorem C8_eta_new_broken :
    etaConstruct = Except.error PyErr.attributeError := rfl

/-- C9 counterexample: iterating over the empty sequence performs no
update, so no render ever assigns the fraction attribute and the final
fraction test of the iteration adapter raises AttributeError instead of
calling finish exactly once. -/
theorem C9_counterexample :
    iterSim (initBar 0 0) 0 = Except.error PyErr.attributeError := rfl

/-- One spinner-mode update on a state with zero total and zero throttle:
the render is never skipped, the fraction is recomputed as 0, and no outro
is emitted. -/
theorem update_spinner (s : BarState) (h0 : s.total = 0) (h1 : s.throttle = 0)
    (h2 : s.lastRender ≤ s.done) :
    update s 1 = { s with done := s.done + 1, lastRender := s.done + 1,
                          started := true, fractionSet := some 0,
                          renders := s.renders ++ [s.done + 1] } := by
  have hstep : update s 1 = render { s with done := s.done + 1 } := by
    norm_num [update]
  set t : BarState := { s with done := s.done + 1 } with ht
  have hguard : ¬ (t.done < t.lastRender + t.throttle ∧
      t.lastRender + t.throttle ≤ t.total) := by
    rintro ⟨a, b⟩
    have a' : s.done + 1 < s.lastRender + s.throttle := a
    omega
  have hfrac : fractionOf t.done t.total = 0 := by
    have heq : fractionOf t.done t.total = fractionOf (s.done + 1) s.total := rfl
    rw [heq, h0, fractionOf, if_pos rfl]
  rw [hstep, render_not_throttled t hguard, hfrac]
  rw [if_neg (by norm_num : ¬ (1 : ℚ) ≤ 0)]

/-- Invariant of repeated spinner-mode updates from a fresh unbounded bar:
the configuration fields persist, no outro is ever emitted by render, the
last rendered value never exceeds done, and after at least one update the
fraction attribute is set to 0. -/
theorem updates_spinner (n : ℕ) :
    (updates (initBar 0 0) n).total = 0 ∧
    (updates (initBar 0 0) n).throttle = 0 ∧
    (updates (initBar 0 0) n).outroCount = 0 ∧
    (updates (initBar 0 0) n).lastRender ≤ (updates (initBar 0 0) n).done ∧
    (0 < n → (updates (initBar 0 0) n).fractionSet = some 0) := by
  induction n with
  | zero =>
    refine ⟨rfl, rfl, rfl, le_refl 0, ?_⟩
    intro h
    omega
  | succ n ih =>
    have hstep : updates (initBar 0 0) (n + 1) =
        update (updates (initBar 0 0) n) 1 := by
      rw [updates, Function.iterate_succ_apply']
      rfl
    rw [hstep, update_spinner _ ih.1 ih.2.1 ih.2.2.2.1]
    refine ⟨ih.1, ih.2.1, ih.2.2.1, le_refl _, fun _ => rfl⟩

/-- C9 (amended): for every non-empty finite sequence consumed through the
iteration adapter with total never set, the adapter calls finish exactly
once after exhaustion — the updates themselves never emit outro, and the
final fraction test triggers a single finish; for the empty sequence the
adapter instead fails with an attribute error before reaching finish. -/
theorem C9_amended_iter_finish (n : ℕ) (hn : 0 < n) :
    iterSim (initBar 0 0) n =
      Except.ok (finishB (updates (initBar 0 0) n)) ∧
    (finishB (updates (initBar 0 0) n)).outroCount = 1 := by
  obtain ⟨-, -, hout, -, hfrac⟩ := updates_spinner n
  constructor
  · rw [iterSim, hfrac hn]
    show Except.ok (if (0 : ℚ) ≠ 1 then finishB (updates (initBar 0 0) n)
      else updates (initBar 0 0) n) = _
    rw [if_pos (by norm_num : (0 : ℚ) ≠ 1)]
  · rw [finishB, hout]

/-- Witness for the amended C9 with a one-element sequence. -/
theorem C9_amended_witness :
    iterSim (initBar 0 0) 1 =
      Except.ok (finishB (updates (initBar 0 0) 1)) ∧
    (finishB (updates (initBar 0 0) 1)).outroCount = 1 :=
  C9_amended_iter_finish 1 (by decide)
